import Mathlib

/-!
Verification development for the conversation-to-Markdown renderer
(`conversation_to_md.py`).  The Python source is shallowly embedded:

* duck-typed tool-call arguments are modelled by the JSON-like value type
  `JVal`; operations that raise in Python (`.get` on a non-dict, iterating
  a non-iterable) are modelled in the `Except Unit` monad;
* the decoder (`extract_message_parts`), merger (`format_merged_messages`)
  and assembler (`build_conversation_md`) are translated function by
  function, with the merger's `while`-loops written as structural
  recursions that mirror the cursor walk of the source;
* CPython's `datetime.fromisoformat` (pre-3.11 grammar) and `str.strip`
  are modelled by executable parsers.
-/

/-- JSON-like Python value, used for duck-typed tool-call arguments. -/
inductive JVal where
  | null
  | bool (b : Bool)
  | num (n : Int)
  | str (s : String)
  | arr (xs : List JVal)
  | obj (fields : List (String × JVal))

/-- Python truthiness (`if v:`). -/
def pyTruthy : JVal → Bool
  | .null => false
  | .bool b => b
  | .num n => n != 0
  | .str s => s ≠ ""
  | .arr xs => !xs.isEmpty
  | .obj fs => !fs.isEmpty

/-- Python `v == "s"` for a string literal on the right: only a `str`
value can compare equal. -/
def pyEqStr (v : JVal) (s : String) : Bool :=
  match v with
  | .str t => t = s
  | _ => false

/-- `v` is a Python mapping (`dict`). -/
def isObj : JVal → Bool
  | .obj _ => true
  | _ => false

mutual
/-- Python `repr` of a value (string escaping inside `repr` is not
reproduced; no theorem below depends on it). -/
def pyRepr : JVal → String
  | .null => "None"
  | .bool b => if b then "True" else "False"
  | .num n => toString n
  | .str s => "'" ++ s ++ "'"
  | .arr xs => "[" ++ String.intercalate ", " (pyReprList xs) ++ "]"
  | .obj fs => "\x7b" ++ String.intercalate ", " (pyReprFields fs) ++ "\x7d"

def pyReprList : List JVal → List String
  | [] => []
  | x :: xs => pyRepr x :: pyReprList xs

def pyReprFields : List (String × JVal) → List String
  | [] => []
  | (k, v) :: fs => ("'" ++ k ++ "': " ++ pyRepr v) :: pyReprFields fs
end

/-- Python `str(v)` as used inside an f-string. -/
def pyStr : JVal → String
  | .str s => s
  | v => pyRepr v

/-- Dictionary field lookup with default (total; only meaningful on `obj`). -/
def jFieldD (v : JVal) (k : String) (d : JVal) : JVal :=
  match v with
  | .obj fs => ((fs.lookup k).getD d)
  | _ => d

/-- Python `v.get(k, d)`: succeeds on a `dict`, raises `AttributeError`
otherwise (modelled as `Except.error ()`). -/
def pyGet (v : JVal) (k : String) (d : JVal) : Except Unit JVal :=
  match v with
  | .obj fs => .ok ((fs.lookup k).getD d)
  | _ => .error ()

/-- Python `for x in v`: lists iterate their elements, strings their
characters, dicts their keys; anything else raises `TypeError`. -/
def pyIter : JVal → Except Unit (List JVal)
  | .arr xs => .ok xs
  | .str s => .ok (s.data.map fun c => JVal.str (String.mk [c]))
  | .obj fs => .ok (fs.map fun kv => JVal.str kv.1)
  | _ => .error ()

/-- One line of the `TodoWrite` loop body in `_format_tool_call`:
`status = t.get('status', 'pending')`, checkbox, `content = t.get('content','')`. -/
def todoLine (t : JVal) : Except Unit String := do
  let status ← pyGet t "status" (.str "pending")
  let checkbox := if pyEqStr status "completed" then "[x]" else "[ ]"
  let content ← pyGet t "content" (.str "")
  pure ("  - " ++ checkbox ++ " " ++ pyStr content)

/-- The `for t in todos` loop of the `TodoWrite` branch, collecting one
line per item (all items; the source has no truncation). -/
def todoLines : List JVal → Except Unit (List String)
  | [] => .ok []
  | t :: ts => do
      let l ← todoLine t
      let ls ← todoLines ts
      pure (l :: ls)

/-- `_format_tool_call(tool_name, tool_input)` from the source, with
Python's attribute/type errors surfaced in `Except`. -/
def _format_tool_call (tool_name : String) (tool_input : JVal) : Except Unit String :=
  if tool_name = "Read" ∨ tool_name = "Write" ∨ tool_name = "Edit" then do
    let path ← pyGet tool_input "file_path" (.str "")
    pure ("[" ++ tool_name ++ "] " ++ pyStr path)
  else if tool_name = "Glob" ∨ tool_name = "Grep" then do
    let pat ← pyGet tool_input "pattern" (.str "")
    pure ("[" ++ tool_name ++ "] " ++ pyStr pat)
  else if tool_name = "Bash" then
    pure "[Bash]"
  else if tool_name = "Task" then do
    let desc ← pyGet tool_input "description" (.str "")
    let agent_type ← pyGet tool_input "subagent_type" (.str "")
    pure ("[Task] " ++ pyStr desc ++ " (" ++ pyStr agent_type ++ ")")
  else if tool_name = "TodoWrite" then do
    let todos ← pyGet tool_input "todos" (.arr [])
    if pyTruthy todos = false then
      pure "[TodoWrite]"
    else do
      let items ← pyIter todos
      let ls ← todoLines items
      pure (String.intercalate "\n" ("[TodoWrite]" :: ls))
  else if tool_name = "WebFetch" then do
    let url ← pyGet tool_input "url" (.str "")
    pure ("[WebFetch] " ++ pyStr url)
  else if tool_name = "WebSearch" then do
    let query ← pyGet tool_input "query" (.str "")
    pure ("[WebSearch] " ++ pyStr query)
  else
    pure ("[" ++ tool_name ++ "]")

/-- One element of a `message.content` list.  A raw block is a Python
value; the tagged variants record the result of the `block.get('type','')`
dispatch in `get_text_content`: a bare string, a `text`/`thinking`/
`tool_use`/`tool_result` dict (with the fields the source reads kept as
optional, defaults applied at the read site), or any other shape
(non-dict non-str element, or a dict with an unrecognised type tag),
which the source skips. -/
inductive ContentBlock where
  | plainStr (s : String)
  | text (t : Option String)
  | thinking (t : Option String)
  | toolUse (name : Option String) (input : Option JVal)
  | toolResult
  | other

/-- `c.get('type') == 'tool_result'` test used for the user-role filter. -/
def isToolResult : ContentBlock → Bool
  | .toolResult => true
  | _ => false

/-- `get_text_content(content_blocks)`: partition blocks into newline-joined
text, newline-joined thinking, and the ordered list of formatted tool
calls.  Tool formatting can raise (see `_format_tool_call`), hence `Except`. -/
def get_text_content (content_blocks : List ContentBlock) : Except Unit (String × String × List String) := do
  let acc ← content_blocks.foldlM
    (fun (acc : List String × List String × List String) block => do
      let (tp, thp, tc) := acc
      match block with
      | .plainStr s => pure (tp ++ [s], thp, tc)
      | .text t => pure (tp ++ [t.getD ""], thp, tc)
      | .thinking t => pure (tp, thp ++ [t.getD ""], tc)
      | .toolUse name input => do
          let f ← _format_tool_call (name.getD "unknown") (input.getD (.obj []))
          pure (tp, thp, tc ++ [f])
      | .toolResult => pure acc
      | .other => pure acc)
    ([], [], [])
  pure (String.intercalate "\n" acc.1, String.intercalate "\n" acc.2.1, acc.2.2)

/-- Index of the first occurrence of `pat` as a contiguous sublist of `s`. -/
def findSub (pat : List Char) : List Char → Option Nat
  | [] => if pat.isEmpty then some 0 else none
  | a :: rest =>
      if pat.isPrefixOf (a :: rest) then some 0
      else (findSub pat rest).map (· + 1)

/-- Leftmost, shortest region `open…close` (the match of the non-greedy
DOTALL regex `open.*?close`): the text before the match and the text
after the closing tag, or `none` when the regex does not match. -/
def splitFirstRegion (o c : List Char) (s : List Char) : Option (List Char × List Char) :=
  match findSub o s with
  | none => none
  | some i =>
      let afterOpen := s.drop (i + o.length)
      match findSub c afterOpen with
      | none => none
      | some j => some (s.take i, afterOpen.drop (j + c.length))

/-- `re.sub(open + '.*?' + close, repl, s, flags=DOTALL)` for literal
tags, via repeated leftmost-shortest replacement.  Fuel decreases once
per replacement; `s.length` steps always suffice because the tags used
below are non-empty, so every replacement consumes characters. -/
def replaceRegionsFuel (o c repl : List Char) : Nat → List Char → List Char
  | 0, s => s
  | fuel + 1, s =>
      match splitFirstRegion o c s with
      | none => s
      | some (pre, post) => pre ++ repl ++ replaceRegionsFuel o c repl fuel post

/-- `re.sub` of one pseudo-tag region kind over a string. -/
def replaceRegions (o c repl s : String) : String :=
  String.mk (replaceRegionsFuel o.data c.data repl.data (s.length + 1) s.data)

/-- Characters removed by Python `str.strip()` with no argument
(ASCII whitespace; the exotic Unicode space classes are not modelled). -/
def pyIsSpace (ch : Char) : Bool :=
  ch = ' ' ∨ ch = '\t' ∨ ch = '\n' ∨ ch = '\r' ∨ ch = '\x0b' ∨ ch = '\x0c'

/-- Python `s.strip()`. -/
def pyStrip (s : String) : String :=
  String.mk (((s.data.dropWhile pyIsSpace).reverse.dropWhile pyIsSpace).reverse)

/-- The text clean-up applied to a non-empty `text` in
`extract_message_parts`: collapse `<ide_selection>…</ide_selection>` to a
placeholder, delete `<ide_opened_file>…</ide_opened_file>` and
`<system-reminder>…</system-reminder>`, then strip. -/
def cleanText (s : String) : String :=
  pyStrip
    (replaceRegions "<system-reminder>" "</system-reminder>" ""
      (replaceRegions "<ide_opened_file>" "</ide_opened_file>" ""
        (replaceRegions "<ide_selection>" "</ide_selection>" "[IDE Selection]" s)))

/-- Decoder output (`extract_message_parts` return value). -/
structure MessagePart where
  role : String
  model : String
  text : String
  thinking : String
  tool_calls : List String
deriving DecidableEq

/-- The `message` sub-object of a raw event: `role` (absent modelled as
`none`), `content` (a plain string or a block list; `none` models a
missing field, read back as `[]`), and `model` (missing read as `""`). -/
inductive PyContent where
  | str (s : String)
  | blocks (bs : List ContentBlock)

structure MsgData where
  role : Option String
  content : Option PyContent
  model : String

/-- `msg['toolUseResult']` when it is a dict: the fields the assembler
reads.  `agentId := none` models a missing/None value. -/
structure ToolUseResult where
  agentId : Option String
  description : String

/-- One raw JSONL event, restricted to the fields the renderer reads.
Missing string fields are modelled as `""` (the source always reads them
with falsy defaults), a missing/non-dict `message` as `none`, and a
missing or non-dict `toolUseResult` as `none` (the source guards it with
`isinstance(..., dict)` and a non-dict behaves like a missing one). -/
structure Msg where
  type : String
  message : Option MsgData
  timestamp : String
  cwd : String
  toolUseResult : Option ToolUseResult

/-- `msg.get('message', {})` with the empty dict's field reads. -/
def msgDataOf (m : Msg) : MsgData :=
  m.message.getD ⟨none, none, ""⟩

/-- `message_data.get('role', msg_type)`. -/
def roleOf (m : Msg) : String :=
  (msgDataOf m).role.getD m.type

/-- `content` after the string-to-single-text-block normalisation. -/
def effectiveContent (m : Msg) : List ContentBlock :=
  match (msgDataOf m).content with
  | some (.str s) => [.text (some s)]
  | some (.blocks bs) => bs
  | none => []

/-- Split a character list at every occurrence of a separator character
(Python `str.split` with a one-character separator). -/
def splitOnChar (sep : Char) : List Char → List (List Char)
  | [] => [[]]
  | c :: rest =>
      let r := splitOnChar sep rest
      if c = sep then [] :: r
      else
        match r with
        | l :: t => (c :: l) :: t
        | [] => [[c]]

/-- `model.split('-')[1] if '-' in model else model`. -/
def modelShort (model : String) : String :=
  if model.data.contains '-' then
    String.mk ((splitOnChar '-' model.data).getD 1 [])
  else model

/-- `extract_message_parts(msg)`: decode one raw event to a normalised
part, or `none` for skipped events.  Mirrors the source's order of
operations: skip-type check, content extraction, user/tool-result filter,
emptiness filter (on the *raw* extracted text), then model shortening and
text clean-up. -/
def extract_message_parts (msg : Msg) : Except Unit (Option MessagePart) := do
  let msg_type := msg.type
  if msg_type = "queue-operation" ∨ msg_type = "file-history-snapshot" then
    pure none
  else do
    let role := roleOf msg
    let content := effectiveContent msg
    let (text, thinking, tool_calls) ← get_text_content content
    if role = "user" ∧ content.any isToolResult then
      pure none
    else if text = "" ∧ thinking = "" ∧ tool_calls = [] then
      pure none
    else
      let model_short := modelShort (msgDataOf msg).model
      let text := if text ≠ "" then cleanText text else text
      pure (some ⟨role, model_short, text, thinking, tool_calls⟩)

/-- Python `text.split('\n')`. -/
def splitLines (s : String) : List String :=
  (splitOnChar '\n' s.data).map String.mk

/-- Lines emitted for one user part: header, blank, then the part's
`text` lines (indent-prefixed) and a blank when the text is non-empty. -/
def userLines (p : MessagePart) (indent : String) : List String :=
  [indent ++ "### User", ""] ++
    (if p.text ≠ "" then (splitLines p.text).map (fun l => indent ++ l) ++ [""] else [])

/-- `model` after the run scan: the last non-empty model tag. -/
def lastModel (ps : List MessagePart) : String :=
  ps.foldl (fun acc p => if p.model ≠ "" then p.model else acc) ""

/-- One entry of the `content_items` list built for an assistant run. -/
inductive RunItem where
  | thinking (t : String)
  | text (t : String)
  | tools (ts : List String)
deriving DecidableEq

/-- The `content_items` contributed by one assistant part: its thinking,
text and tool-call list, each included only when non-empty, in that order. -/
def partItems (p : MessagePart) : List RunItem :=
  (if p.thinking ≠ "" then [.thinking p.thinking] else []) ++
  (if p.text ≠ "" then [.text p.text] else []) ++
  (if p.tool_calls ≠ [] then [.tools p.tool_calls] else [])

/-- `content_items` for a whole run, in arrival order. -/
def contentItems : List MessagePart → List RunItem
  | [] => []
  | p :: rest => partItems p ++ contentItems rest

/-- Emit a pending gathered tool group (`- <tc>` lines plus a blank), if any. -/
def flushTools (indent : String) : Option (List String) → List String
  | none => []
  | some ts => ts.map (fun tc => indent ++ "- " ++ tc) ++ [""]

/-- The output loop over `content_items`: thinking lines are `> `-quoted,
text lines indent-prefixed, and consecutive `tools` entries are gathered
into one list before being emitted.  The first argument is the tool group
gathered so far (the running `all_tools` of the source). -/
def emitItemsAux (indent : String) : Option (List String) → List RunItem → List String
  | pending, [] => flushTools indent pending
  | pending, .thinking t :: rest =>
      flushTools indent pending ++
        (splitLines t).map (fun l => indent ++ "> " ++ l) ++ [""] ++
        emitItemsAux indent none rest
  | pending, .text t :: rest =>
      flushTools indent pending ++
        (splitLines t).map (fun l => indent ++ l) ++ [""] ++
        emitItemsAux indent none rest
  | pending, .tools ts :: rest =>
      emitItemsAux indent (some (pending.getD [] ++ ts)) rest

/-- Lines emitted for one assistant run: single header (with the last
non-empty model tag) and the run's content items. -/
def runLines (ps : List MessagePart) (indent : String) : List String :=
  [indent ++ "### Assistant (" ++ lastModel ps ++ ")", ""] ++
    emitItemsAux indent none (contentItems ps)

/-- The cursor walk of `format_merged_messages` over already-decoded
parts (`none` = the decoder returned absent).  The accumulator `run`
holds the assistant parts collected so far by the inner
consecutive-assistant loop; a non-assistant part (or the end of input)
flushes it as one run.  `none` entries are skipped both by the outer loop
and by the inner collection loop, exactly as in the source. -/
def mergeWalkAux (indent : String) (run : List MessagePart) : List (Option MessagePart) → List String
  | [] => if run = [] then [] else runLines run indent
  | none :: rest => mergeWalkAux indent run rest
  | some p :: rest =>
      if p.role = "assistant" then
        mergeWalkAux indent (run ++ [p]) rest
      else
        (if run = [] then [] else runLines run indent) ++
          (if p.role = "user" then userLines p indent else []) ++
          mergeWalkAux indent [] rest

/-- The merger's line output for a sequence of decoded parts. -/
def mergeWalk (parts : List (Option MessagePart)) (indent : String) : List String :=
  mergeWalkAux indent [] parts

/-- `format_merged_messages(messages, indent)`.  Decoding is pure, so the
source's interleaved `extract_message_parts` calls (each message is
decoded exactly once along the walk) are hoisted into one `mapM` in front
of the walk; an exception anywhere still aborts the whole call. -/
def format_merged_messages (messages : List Msg) (indent : String := "") : Except Unit String := do
  let parts ← messages.mapM extract_message_parts
  pure (String.intercalate "\n" (mergeWalk parts indent))

/-- Decimal digit value of a character, if any. -/
def digitVal (ch : Char) : Option Nat :=
  if '0' ≤ ch ∧ ch ≤ '9' then some (ch.toNat - 48) else none

/-- Parse exactly two digits. -/
def parse2 : List Char → Option (Nat × List Char)
  | a :: b :: rest => do
      let x ← digitVal a
      let y ← digitVal b
      pure (10 * x + y, rest)
  | _ => none

/-- Parse exactly four digits. -/
def parse4 : List Char → Option (Nat × List Char)
  | a :: b :: c :: d :: rest => do
      let x ← digitVal a
      let y ← digitVal b
      let z ← digitVal c
      let w ← digitVal d
      pure (1000 * x + 100 * y + 10 * z + w, rest)
  | _ => none

def expectChar (ch : Char) : List Char → Option (List Char)
  | c :: rest => if c = ch then some rest else none
  | [] => none

def isLeapYear (y : Nat) : Bool :=
  y % 4 = 0 ∧ (y % 100 ≠ 0 ∨ y % 400 = 0)

def daysInMonth (y m : Nat) : Nat :=
  if m = 2 then (if isLeapYear y then 29 else 28)
  else if m = 4 ∨ m = 6 ∨ m = 9 ∨ m = 11 then 30
  else 31

/-- The fields of a parsed `datetime` that `strftime('%Y-%m-%d %H:%M')`
reads. -/
structure PyDateTime where
  year : Nat
  month : Nat
  day : Nat
  hour : Nat
  minute : Nat
deriving DecidableEq

/-- `YYYY-MM-DD` with `datetime`'s range checks. -/
def parseIsoDate (cs : List Char) : Option (Nat × Nat × Nat × List Char) := do
  let (y, r1) ← parse4 cs
  let r2 ← expectChar '-' r1
  let (m, r3) ← parse2 r2
  let r4 ← expectChar '-' r3
  let (d, r5) ← parse2 r4
  if 1 ≤ y ∧ 1 ≤ m ∧ m ≤ 12 ∧ 1 ≤ d ∧ d ≤ daysInMonth y m then
    pure (y, m, d, r5)
  else none

/-- Optional `.fff` / `.ffffff` fraction (must end the component). -/
def parseFraction (cs : List Char) : Option Unit := do
  let r ← expectChar '.' cs
  if (r.length = 3 ∨ r.length = 6) ∧ r.all (fun ch => (digitVal ch).isSome) then
    pure ()
  else none

/-- `HH[:MM[:SS[.fff[fff]]]]` consuming the whole component, with the
`datetime` field range checks; returns (hour, minute). -/
def parseIsoTime (cs : List Char) : Option (Nat × Nat) := do
  let (hh, r1) ← parse2 cs
  if hh ≥ 24 then none
  else match r1 with
  | [] => pure (hh, 0)
  | _ => do
    let r2 ← expectChar ':' r1
    let (mm, r3) ← parse2 r2
    if mm ≥ 60 then none
    else match r3 with
    | [] => pure (hh, mm)
    | _ => do
      let r4 ← expectChar ':' r3
      let (ss, r5) ← parse2 r4
      if ss ≥ 60 then none
      else match r5 with
      | [] => pure (hh, mm)
      | _ => do
        let _ ← parseFraction r5
        pure (hh, mm)

/-- Offset part `HH:MM[:SS[.ffffff]]`, valid when it denotes less than
24 hours (the `timezone(timedelta(...))` constraint). -/
def parseIsoTz (cs : List Char) : Option Unit := do
  let (hh, r1) ← parse2 cs
  let r2 ← expectChar ':' r1
  let (mm, r3) ← parse2 r2
  if hh * 60 + mm ≥ 24 * 60 then none
  else match r3 with
  | [] => pure ()
  | _ => do
    let r4 ← expectChar ':' r3
    let (ss, r5) ← parse2 r4
    if ss ≥ 60 then none
    else match r5 with
    | [] => pure ()
    | _ => do
      let r6 ← expectChar '.' r5
      if r6.length = 6 ∧ r6.all (fun ch => (digitVal ch).isSome) then pure () else none

/-- Split the time component at the first `-` (else the first `+`), the
way CPython `_parse_isoformat_time` locates a UTC-offset suffix. -/
def splitTzPart (cs : List Char) : List Char × Option (List Char) :=
  match findSub ['-'] cs with
  | some i => (cs.take i, some (cs.drop (i + 1)))
  | none =>
      match findSub ['+'] cs with
      | some i => (cs.take i, some (cs.drop (i + 1)))
      | none => (cs, none)

/-- Model of pre-3.11 CPython `datetime.fromisoformat`: `YYYY-MM-DD`,
optionally one separator character (unvalidated) and
`HH[:MM[:SS[.fff[fff]]]][±HH:MM[:SS[.ffffff]]]`. -/
def pyFromIso (s : String) : Option PyDateTime := do
  let (y, m, d, rest) ← parseIsoDate s.data
  match rest with
  | [] => pure ⟨y, m, d, 0, 0⟩
  | _sep :: trest => do
      let (timecs, tz) := splitTzPart trest
      let (hh, mi) ← parseIsoTime timecs
      match tz with
      | none => pure ⟨y, m, d, hh, mi⟩
      | some tzcs => do
          let _ ← parseIsoTz tzcs
          pure ⟨y, m, d, hh, mi⟩

def pad2 (n : Nat) : String :=
  if n < 10 then "0" ++ toString n else toString n

def pad4 (n : Nat) : String :=
  if n < 10 then "000" ++ toString n
  else if n < 100 then "00" ++ toString n
  else if n < 1000 then "0" ++ toString n
  else toString n

/-- `dt.strftime('%Y-%m-%d %H:%M')`. -/
def fmtMinute (dt : PyDateTime) : String :=
  pad4 dt.year ++ "-" ++ pad2 dt.month ++ "-" ++ pad2 dt.day ++ " " ++
    pad2 dt.hour ++ ":" ++ pad2 dt.minute

/-- `ts.replace('Z', '+00:00')`: every occurrence of `Z` replaced. -/
def replaceZChars : List Char → List Char
  | [] => []
  | c :: rest =>
      if c = 'Z' then '+' :: '0' :: '0' :: ':' :: '0' :: '0' :: replaceZChars rest
      else c :: replaceZChars rest

def pyReplaceZ (s : String) : String := String.mk (replaceZChars s.data)

/-- `get_first_timestamp(messages)`: the first message with a truthy
`timestamp` decides the result — minute-precision format if
`fromisoformat(ts.replace('Z', '+00:00'))` parses, else the first 16
characters of the raw string; `"unknown"` when no message has one. -/
def get_first_timestamp : List Msg → String
  | [] => "unknown"
  | m :: rest =>
      let ts := m.timestamp
      if ts ≠ "" then
        match pyFromIso (pyReplaceZ ts) with
        | some dt => fmtMinute dt
        | none => ts.take 16
      else get_first_timestamp rest

/-- One agent (sub-conversation) log as grouped by the caller. -/
structure AgentInfo where
  agent_id : String
  messages : List Msg

/-- The fields of `session_info` that `build_conversation_md` reads. -/
structure SessionInfo where
  filepath_stem : String
  session_id : String
  messages : List Msg

/-- The `agent_messages_by_id` dict: built by insertion in list order, so
a later agent with the same id overwrites an earlier one. -/
def agent_messages_by_id (agents : List AgentInfo) (i : String) : Option (List Msg) :=
  agents.foldl (fun acc a => if a.agent_id = i then some a.messages else acc) none

/-- The truthy spawned agent id of a message:
`msg.get('toolUseResult', {}).get('agentId')` guarded by
`isinstance(..., dict)` and by Python truthiness. -/
def spawnTruthy (m : Msg) : Option String :=
  match m.toolUseResult with
  | some tur =>
      match tur.agentId with
      | some s => if s ≠ "" then some s else none
      | none => none
  | none => none

/-- `tool_result.get('description', '')` at a spawn point. -/
def spawnDescription (m : Msg) : String :=
  match m.toolUseResult with
  | some tur => tur.description
  | none => ""

/-- The mutable state of the assembler's main loop: the pending chunk,
the set of already-inlined agent ids, and the output lines so far. -/
structure WalkState where
  chunk : List Msg
  inlined : List String
  lines : List String

/-- Flushing a chunk: append its merged markdown when it is non-blank. -/
def chunkFlushAppend (lines : List String) (formatted : String) : List String :=
  if pyStrip formatted ≠ "" then lines ++ [formatted] else lines

/-- The block-quoted sub-section emitted when an agent is inlined. -/
def agentSectionLines (aid desc agent_formatted : String) : List String :=
  ["> ---", "> **[Agent: " ++ aid ++ "]** " ++ desc, ">"] ++
    (if pyStrip agent_formatted ≠ "" then [agent_formatted] else []) ++
    ["> **[Agent: " ++ aid ++ "]** ended", "> ---", ""]

/-- One iteration of the assembler's message loop: append the message to
the chunk; if it carries a truthy spawned agent id, flush the chunk,
then inline the agent if it is available and not yet inlined. -/
def walkStep (agents : List AgentInfo) (st : WalkState) (m : Msg) : Except Unit WalkState := do
  let chunk := st.chunk ++ [m]
  match spawnTruthy m with
  | none => pure { st with chunk := chunk }
  | some aid => do
      let formatted ← format_merged_messages chunk ""
      let lines := chunkFlushAppend st.lines formatted
      if (agent_messages_by_id agents aid).isSome ∧ st.inlined.contains aid = false then do
        let agent_formatted ← format_merged_messages
          ((agent_messages_by_id agents aid).getD []) "> "
        pure ⟨[], st.inlined ++ [aid],
          lines ++ agentSectionLines aid (spawnDescription m) agent_formatted⟩
      else
        pure ⟨[], st.inlined, lines⟩

/-- `build_conversation_md(session_info, agents)`: metadata header, the
spawn-splitting chunk walk, the trailing chunk, then never-inlined agents. -/
def build_conversation_md (session_info : SessionInfo) (agents : List AgentInfo) : Except Unit String := do
  let start_time := get_first_timestamp session_info.messages
  let cwd := ((session_info.messages.find? (fun m => m.cwd ≠ "")).map Msg.cwd).getD ""
  let headerLines :=
    ["# Conversation: " ++ session_info.filepath_stem, "",
     "**Session ID:** `" ++ session_info.session_id ++ "`",
     "**Started:** " ++ start_time] ++
    (if cwd ≠ "" then ["**Working Directory:** `" ++ cwd ++ "`"] else []) ++
    ["**Agents spawned:** " ++ toString agents.length, "", "---", ""]
  let st ← session_info.messages.foldlM (walkStep agents) ⟨[], [], headerLines⟩
  let lines ←
    if !st.chunk.isEmpty then do
      let formatted ← format_merged_messages st.chunk ""
      pure (chunkFlushAppend st.lines formatted)
    else pure st.lines
  let lines ← agents.foldlM
    (fun ls a =>
      if st.inlined.contains a.agent_id then pure ls
      else do
        let agent_formatted ← format_merged_messages a.messages "> "
        pure (ls ++ ["## Agent: " ++ a.agent_id ++ " (not inlined)", ""] ++
          (if pyStrip agent_formatted ≠ "" then [agent_formatted] else [])))
    lines
  pure (String.intercalate "\n" lines)

/-! ### Reference definitions taken from the specification's wording -/

/-- Spec wording for C1 (Block Merger §4.3): within one assistant run,
output *grouped by kind* — every reasoning text first (quoted), then
every plain text, then every tool summary as one uninterrupted list. -/
def specKindGroupedRun (ps : List MessagePart) (indent : String) : List String :=
  [indent ++ "### Assistant (" ++ lastModel ps ++ ")", ""] ++
  ((ps.filter (fun p => p.thinking ≠ "")).map
    (fun p => (splitLines p.thinking).map (fun l => indent ++ "> " ++ l) ++ [""])).flatten ++
  ((ps.filter (fun p => p.text ≠ "")).map
    (fun p => (splitLines p.text).map (fun l => indent ++ l) ++ [""])).flatten ++
  (if (ps.map (fun p => p.tool_calls)).flatten ≠ [] then
    ((ps.map (fun p => p.tool_calls)).flatten.map (fun tc => indent ++ "- " ++ tc)) ++ [""]
   else [])

/-- Coalesce adjacent `tools` groups into a single group (the only
reordering the merger actually performs within a run). -/
def coalesceTools : List RunItem → List RunItem
  | [] => []
  | .tools a :: rest =>
      match coalesceTools rest with
      | .tools b :: rest' => .tools (a ++ b) :: rest'
      | r => .tools a :: r
  | x :: rest => x :: coalesceTools rest

/-- Render one run item on its own (no cross-item merging). -/
def renderItem (indent : String) : RunItem → List String
  | .thinking t => (splitLines t).map (fun l => indent ++ "> " ++ l) ++ [""]
  | .text t => (splitLines t).map (fun l => indent ++ l) ++ [""]
  | .tools ts => ts.map (fun tc => indent ++ "- " ++ tc) ++ [""]

def renderItems (indent : String) (items : List RunItem) : List String :=
  (items.map (renderItem indent)).flatten

/-- Spec wording for C3: the number of maximal same-role runs of a part
sequence. -/
def sameRoleRuns : List MessagePart → Nat
  | [] => 0
  | [_] => 1
  | p :: q :: rest => (if p.role = q.role then 0 else 1) + sameRoleRuns (q :: rest)

/-- Number of maximal runs of consecutive `assistant` parts (counted at
their right boundaries). -/
def assistantRuns : List MessagePart → Nat
  | [] => 0
  | [p] => if p.role = "assistant" then 1 else 0
  | p :: q :: rest =>
      (if p.role = "assistant" ∧ q.role ≠ "assistant" then 1 else 0) + assistantRuns (q :: rest)

/-- `pat` is a prefix of `s` (character lists). -/
def startsWithChars : List Char → List Char → Bool
  | [], _ => true
  | _ :: _, [] => false
  | a :: pat, b :: s => a == b && startsWithChars pat s

/-- A rendered line that is a Markdown `###` header, as the merger emits
them without indentation. -/
def isHeaderLine (s : String) : Bool :=
  startsWithChars ['#', '#', '#', ' '] s.data

/-- A part whose visible text cannot be mistaken for a header line. -/
def noHeaderText (p : MessagePart) : Prop :=
  ∀ l ∈ splitLines p.text, isHeaderLine l = false

/-- Header-count automaton mirroring `mergeWalkAux`: `pending` records
whether an assistant run is currently open. -/
def headerCountAux (pending : Bool) : List (Option MessagePart) → Nat
  | [] => if pending then 1 else 0
  | none :: rest => headerCountAux pending rest
  | some p :: rest =>
      if p.role = "assistant" then headerCountAux true rest
      else
        (if pending then 1 else 0) + (if p.role = "user" then 1 else 0) +
          headerCountAux false rest

/-- The summary line the source's `TodoWrite` loop produces for one todo
item that is a mapping. -/
def specTodoLine (t : JVal) : String :=
  "  - " ++ (if pyEqStr (jFieldD t "status" (.str "pending")) "completed" then "[x]" else "[ ]") ++
    " " ++ pyStr (jFieldD t "content" (.str ""))

/-- `pat` occurs as a substring of `s`. -/
def strContainsSub (s pat : String) : Bool :=
  (findSub pat.data s.data).isSome

/-- The known tool names with dedicated formatting rules. -/
def knownToolNames : List String :=
  ["Read", "Write", "Edit", "Glob", "Grep", "Bash", "Task", "TodoWrite", "WebFetch", "WebSearch"]

/-- Number of Markdown header lines in a rendered line list. -/
def headerCount (ls : List String) : Nat :=
  ls.countP (fun s => isHeaderLine s)

/-- Number of user parts in a part sequence. -/
def usersCount (ps : List MessagePart) : Nat :=
  ps.countP (fun p => p.role == "user")

def dummyAssistant : MessagePart := ⟨"assistant", "", "", "", []⟩

/-- An event whose user text becomes empty only after the pseudo-tag
clean-up: the raw text is non-empty, so the emptiness filter passes. -/
def emptyAfterCleanupMsg : Msg :=
  ⟨"user", some ⟨some "user", some (.str "<system-reminder>hi</system-reminder>"), ""⟩,
    "", "", none⟩

/-- A concrete seven-item `todos` argument (the §8 scenario). -/
def sevenTodos : List JVal :=
  [.obj [("status", .str "completed"), ("content", .str "t1")],
   .obj [("status", .str "pending"), ("content", .str "t2")],
   .obj [("status", .str "completed"), ("content", .str "t3")],
   .obj [("status", .str "in_progress"), ("content", .str "t4")],
   .obj [("status", .str "pending"), ("content", .str "t5")],
   .obj [("status", .str "completed"), ("content", .str "t6")],
   .obj [("status", .str "pending"), ("content", .str "t7")]]

/-! ### Claim C9 -/

/-- C9: for every decoded part with role `"user"`, the Merger renders
only the `### User` header and the lines of `visibleText`; any
`reasoningText` or `toolSummaries` carried by a user part are silently
omitted (the right-hand side mentions neither, and the equation holds
for arbitrary values of both). -/
theorem C9_user_renders_only_text (model text thinking : String) (tcs : List String)
    (rest : List (Option MessagePart)) (ind : String) :
    mergeWalk (some ⟨"user", model, text, thinking, tcs⟩ :: rest) ind =
      [ind ++ "### User", ""] ++
        (if text ≠ "" then (splitLines text).map (fun l => ind ++ l) ++ [""] else []) ++
        mergeWalk rest ind := rfl

/-! ### Claim C2 -/

/-- C2 counterexample: the decoder does *not* return absent for
`emptyAfterCleanupMsg` even though `visibleText`, `reasoningText` and
`toolSummaries` are all empty in the result — the emptiness check runs on
the raw extracted text, before the clean-up empties it, so a MessagePart
with all three fields empty is constructed and does reach the Merger. -/
theorem C2_counterexample :
    extract_message_parts emptyAfterCleanupMsg =
      Except.ok (some ⟨"user", "", "", "", []⟩) := rfl

/-- C2 (amended): the decoder returns absent exactly when the event is a
skip-type, a user event carrying a tool result, or the *pre-clean-up*
extracted text, reasoning and tool summaries are all empty; emptiness
introduced by the pseudo-tag clean-up does not cause absence. -/
theorem C2_amended_absence_characterisation (msg : Msg) (t th : String) (tc : List String)
    (h : get_text_content (effectiveContent msg) = Except.ok (t, th, tc)) :
    extract_message_parts msg = Except.ok none ↔
      ((msg.type = "queue-operation" ∨ msg.type = "file-history-snapshot") ∨
       (roleOf msg = "user" ∧ (effectiveContent msg).any isToolResult) ∨
       (t = "" ∧ th = "" ∧ tc = [])) := by
  unfold extract_message_parts
  dsimp only
  rw [h]
  simp only [bind, Except.bind]
  split_ifs with h1 h2 h3 h4
  · simp [pure, Except.pure, h1]
  · simp [pure, Except.pure, h2]
  · simp [pure, Except.pure, h3]
  · constructor
    · intro hx
      exact Option.noConfusion (Except.ok.inj hx)
    · intro hx
      rcases hx with hx | hx | hx
      · exact absurd hx h1
      · exact absurd hx h2
      · exact absurd hx h3
  · constructor
    · intro hx
      exact Option.noConfusion (Except.ok.inj hx)
    · intro hx
      rcases hx with hx | hx | hx
      · exact absurd hx h1
      · exact absurd hx h2
      · exact absurd hx h3

/-- Witness for `C2_amended_absence_characterisation` at a concrete
message with plain text `"hi"`. -/
theorem C2_witness :
    get_text_content (effectiveContent ⟨"user", some ⟨some "user", some (.str "hi"), ""⟩, "", "", none⟩) =
      Except.ok ("hi", "", []) ∧
    (extract_message_parts ⟨"user", some ⟨some "user", some (.str "hi"), ""⟩, "", "", none⟩ =
        Except.ok none ↔
      ((("user" : String) = "queue-operation" ∨ ("user" : String) = "file-history-snapshot") ∨
       (roleOf ⟨"user", some ⟨some "user", some (.str "hi"), ""⟩, "", "", none⟩ = "user" ∧
         (effectiveContent ⟨"user", some ⟨some "user", some (.str "hi"), ""⟩, "", "", none⟩).any isToolResult) ∨
       (("hi" : String) = "" ∧ ("" : String) = "" ∧ ([] : List String) = []))) :=
  ⟨rfl, C2_amended_absence_characterisation _ "hi" "" [] rfl⟩

/-! ### Claim C6 -/

/-- C6 counterexample: with a first event whose timestamp is unparseable
and a later event carrying a parseable (and earlier) timestamp, the
header start time is the first 16 characters of the unparseable raw
string — neither the literal `"unknown"` (which the claim requires on
parse failure) nor the minute-format of the earliest parseable timestamp. -/
theorem C6_counterexample :
    get_first_timestamp
      [⟨"user", none, "zzzz-bad-timestamp-string", "", none⟩,
       ⟨"user", none, "2020-01-01T00:00:00", "", none⟩] = "zzzz-bad-timesta" ∧
    pyFromIso (pyReplaceZ "2020-01-01T00:00:00") = some ⟨2020, 1, 1, 0, 0⟩ ∧
    fmtMinute ⟨2020, 1, 1, 0, 0⟩ = "2020-01-01 00:00" ∧
    ("zzzz-bad-timesta" : String) ≠ "unknown" ∧
    ("zzzz-bad-timesta" : String) ≠ "2020-01-01 00:00" :=
  ⟨rfl, rfl, rfl, by decide, by decide⟩

/-- C6 (amended): the start time comes from the *first* event with a
non-empty timestamp (not the earliest): minute-precision format when
`fromisoformat(ts.replace('Z','+00:00'))` parses, otherwise the first 16
characters of the raw timestamp (not `"unknown"`); `"unknown"` is
returned only when no event carries a non-empty timestamp. -/
theorem C6_amended_start_time (msgs : List Msg) :
    get_first_timestamp msgs =
      match msgs.find? (fun m => m.timestamp != "") with
      | none => "unknown"
      | some m =>
          match pyFromIso (pyReplaceZ m.timestamp) with
          | some dt => fmtMinute dt
          | none => m.timestamp.take 16 := by
  induction msgs with
  | nil => rfl
  | cons m rest ih =>
      by_cases hm : m.timestamp = ""
      · simp [get_first_timestamp, List.find?_cons, hm, ih]
      · simp [get_first_timestamp, List.find?_cons, hm]

/-! ### Claim C7 -/

/-- The `TodoWrite` loop over a list of mapping items succeeds and
produces one summary line per item — all of them. -/
theorem todoLines_ok (ts : List JVal) (h : ∀ t ∈ ts, isObj t = true) :
    todoLines ts = .ok (ts.map specTodoLine) := by
  induction ts with
  | nil => rfl
  | cons t rest ih =>
      have ht := h t (by simp)
      have hrest : ∀ x ∈ rest, isObj x = true := fun x hx => h x (by simp [hx])
      cases t with
      | obj fs =>
          simp [todoLines, todoLine, pyGet, specTodoLine, jFieldD, bind, Except.bind,
            ih hrest, pure, Except.pure]
      | null => simp [isObj] at ht
      | bool b => simp [isObj] at ht
      | num n => simp [isObj] at ht
      | str s => simp [isObj] at ht
      | arr xs => simp [isObj] at ht

/-- C7 counterexample: a `todo-list-write` call with 7 items formats to a
header line plus *seven* item lines — not five — and contains no
`(+2 more)` (nor any `more`) trailer, refuting the truncation clause of
the claim. -/
theorem C7_counterexample :
    _format_tool_call "TodoWrite" (JVal.obj [("todos", JVal.arr sevenTodos)]) =
      Except.ok ("[TodoWrite]\n  - [x] t1\n  - [ ] t2\n  - [x] t3\n  - [ ] t4\n  - [ ] t5\n  - [x] t6\n  - [ ] t7") ∧
    (splitLines "[TodoWrite]\n  - [x] t1\n  - [ ] t2\n  - [x] t3\n  - [ ] t4\n  - [ ] t5\n  - [x] t6\n  - [ ] t7").length = 8 ∧
    strContainsSub "[TodoWrite]\n  - [x] t1\n  - [ ] t2\n  - [x] t3\n  - [ ] t4\n  - [ ] t5\n  - [x] t6\n  - [ ] t7" "(+2 more)" = false ∧
    strContainsSub "[TodoWrite]\n  - [x] t1\n  - [ ] t2\n  - [x] t3\n  - [ ] t4\n  - [ ] t5\n  - [x] t6\n  - [ ] t7" "more" = false :=
  ⟨rfl, rfl, rfl, rfl⟩

/-- C7 (amended): for every todo-list-write call with a non-empty list of
mapping items the output contains the `[TodoWrite]` header followed by
one `  - <checkbox> <text>` line per item for *all* items (checkbox
`[x]` iff the item's status is `"completed"`, else `[ ]`); there is no
5-item cap and no `(+K more)` trailer. -/
theorem C7_amended_all_items (ts : List JVal) (h1 : ts ≠ [])
    (h2 : ∀ t ∈ ts, isObj t = true) :
    _format_tool_call "TodoWrite" (JVal.obj [("todos", JVal.arr ts)]) =
      Except.ok (String.intercalate "\n" ("[TodoWrite]" :: ts.map specTodoLine)) := by
  have hne : ts.isEmpty = false := by
    cases ts with
    | nil => exact absurd rfl h1
    | cons a l => rfl
  simp [_format_tool_call, pyGet, pyTruthy, pyIter, hne, bind, Except.bind,
    todoLines_ok ts h2, pure, Except.pure]

/-- Witness for `C7_amended_all_items` at a concrete two-item call. -/
theorem C7_witness :
    ([.obj [("status", .str "completed"), ("content", .str "a")],
      .obj [("status", .str "pending"), ("content", .str "b")]] : List JVal) ≠ [] ∧
    _format_tool_call "TodoWrite"
      (JVal.obj [("todos", JVal.arr
        [.obj [("status", .str "completed"), ("content", .str "a")],
         .obj [("status", .str "pending"), ("content", .str "b")]])]) =
      Except.ok (String.intercalate "\n" ("[TodoWrite]" ::
        ([.obj [("status", .str "completed"), ("content", .str "a")],
          .obj [("status", .str "pending"), ("content", .str "b")]] : List JVal).map specTodoLine)) :=
  ⟨by simp, C7_amended_all_items _ (by simp) (by intro t ht; fin_cases ht <;> rfl)⟩

/-! ### Claim C5 -/

/-- C5 counterexample: `_format_tool_call('Read', 'x')` — a known tool
name with a non-mapping `arguments` value — raises (`'str' object has no
attribute 'get'`), so the formatter is not total over non-mapping
arguments. -/
theorem C5_counterexample :
    _format_tool_call "Read" (JVal.str "x") = Except.error () := rfl

/-- C5 (amended): the formatter is total on *mapping* arguments for every
tool name except `TodoWrite`; for `TodoWrite` it is total when the
`todos` entry (empty-list default) is a list of mappings; and an unknown
tool name falls through to the literal default `[<name>]` for *any*
arguments value, mapping or not. -/
theorem C5_amended_totality (n : String) (fs : List (String × JVal)) (v : JVal) :
    (n ≠ "TodoWrite" → ∃ s, _format_tool_call n (.obj fs) = Except.ok s) ∧
    (∀ ts : List JVal, (fs.lookup "todos").getD (.arr []) = .arr ts →
      (∀ t ∈ ts, isObj t = true) →
      ∃ s, _format_tool_call "TodoWrite" (.obj fs) = Except.ok s) ∧
    (knownToolNames.contains n = false →
      _format_tool_call n v = Except.ok ("[" ++ n ++ "]")) := by
  refine ⟨?_, ?_, ?_⟩
  · intro hn
    unfold _format_tool_call
    split_ifs <;> exact ⟨_, rfl⟩
  · intro ts hts hobj
    have : _format_tool_call "TodoWrite" (.obj fs) = (do
        let todos ← pyGet (.obj fs) "todos" (.arr [])
        if pyTruthy todos = false then
          pure "[TodoWrite]"
        else do
          let items ← pyIter todos
          let ls ← todoLines items
          pure (String.intercalate "\n" ("[TodoWrite]" :: ls))) := rfl
    rw [this]
    simp only [pyGet, bind, Except.bind, hts]
    cases ts with
    | nil => exact ⟨_, rfl⟩
    | cons t rest =>
        simp [pyTruthy, pyIter, todoLines_ok _ hobj, bind, Except.bind, pure, Except.pure]
  · intro hn
    have hmem : ¬ (n ∈ knownToolNames) := by
      intro hmem
      rw [List.contains_eq_any_beq] at hn
      simp [List.any_eq_true] at hn
      exact hn n hmem rfl
    simp only [knownToolNames, List.mem_cons, List.not_mem_nil, or_false] at hmem
    push_neg at hmem
    obtain ⟨e1, e2, e3, e4, e5, e6, e7, e8, e9, e10⟩ := hmem
    unfold _format_tool_call
    rw [if_neg (by tauto), if_neg (by tauto), if_neg e6, if_neg e7, if_neg e8,
      if_neg e9, if_neg e10]
    rfl

/-- Witness for `C5_amended_totality`: a known tool on a mapping, the
`TodoWrite` branch, and an unknown tool on a non-mapping value. -/
theorem C5_witness :
    (∃ s, _format_tool_call "Glob" (.obj [("pattern", .str "*.py")]) = Except.ok s) ∧
    (∃ s, _format_tool_call "TodoWrite" (.obj [("todos", .arr [])]) = Except.ok s) ∧
    _format_tool_call "SomeNewTool" .null = Except.ok ("[" ++ "SomeNewTool" ++ "]") :=
  ⟨(C5_amended_totality "Glob" [("pattern", .str "*.py")] .null).1 (by decide),
   (C5_amended_totality "TodoWrite" [("todos", .arr [])] .null).2.1 [] rfl
     (by intro t ht; exact absurd ht (List.not_mem_nil t)),
   (C5_amended_totality "SomeNewTool" [] .null).2.2 (by decide)⟩

/-! ### Claim C4 -/

/-- C4: once a sub-conversation identifier is in the inlined set, a spawn
event referencing it changes nothing that depends on the sub-conversation
map: the step is identical for any two agent maps, it adds nothing to the
inlined set and empties the chunk, and (third conjunct) the inlined set
only ever grows along any step, so the identifier stays inlined for the
rest of the walk — hence a second reference to an already-inlined
identifier emits no sub-section and its chunk output is independent of the
sub-conversation's content. -/
theorem C4_second_reference_independent (agents agents' : List AgentInfo)
    (st : WalkState) (m : Msg) (a : String)
    (h1 : spawnTruthy m = some a) (h2 : st.inlined.contains a = true) :
    walkStep agents st m = walkStep agents' st m ∧
    (∀ r, walkStep agents st m = Except.ok r →
      r.inlined = st.inlined ∧ r.chunk = []) ∧
    (∀ (st' : WalkState) (m' : Msg) (r : WalkState),
      st'.inlined.contains a = true → walkStep agents st' m' = Except.ok r →
      r.inlined.contains a = true) := by
  have hmem : a ∈ st.inlined := by simpa using h2
  refine ⟨?_, ?_, ?_⟩
  · unfold walkStep
    rw [h1]
    cases hf : format_merged_messages (st.chunk ++ [m]) "" with
    | error e => simp [bind, Except.bind, hf]
    | ok f =>
        simp only [bind, Except.bind, hf]
        rw [if_neg (by simp [hmem]), if_neg (by simp [hmem])]
  · intro r hr
    unfold walkStep at hr
    rw [h1] at hr
    cases hf : format_merged_messages (st.chunk ++ [m]) "" with
    | error e =>
        simp only [bind, Except.bind, hf] at hr
        exact absurd hr (by simp)
    | ok f =>
        simp only [bind, Except.bind, hf] at hr
        rw [if_neg (by simp [hmem])] at hr
        simp only [pure, Except.pure, Except.ok.injEq] at hr
        rw [← hr]
        exact ⟨rfl, rfl⟩
  · intro st' m' r hmem' hr
    unfold walkStep at hr
    cases hs : spawnTruthy m' with
    | none =>
        rw [hs] at hr
        simp only [pure, Except.pure, Except.ok.injEq] at hr
        rw [← hr]
        exact hmem'
    | some aid =>
        rw [hs] at hr
        cases hf : format_merged_messages (st'.chunk ++ [m']) "" with
        | error e =>
            simp only [bind, Except.bind, hf] at hr
            exact absurd hr (by simp)
        | ok f =>
            simp only [bind, Except.bind, hf] at hr
            split_ifs at hr with hcond
            · cases hbf : format_merged_messages
                ((agent_messages_by_id agents aid).getD []) "> " with
              | error e =>
                  rw [hbf] at hr
                  simp only [bind, Except.bind] at hr
                  exact absurd hr (by simp)
              | ok af =>
                  rw [hbf] at hr
                  simp only [bind, Except.bind, pure, Except.pure, Except.ok.injEq] at hr
                  rw [← hr]
                  have ha : a ∈ st'.inlined := by simpa using hmem'
                  simp [ha]
            · simp only [pure, Except.pure, Except.ok.injEq] at hr
              rw [← hr]
              exact hmem'

/-- Witness for `C4_second_reference_independent` at a concrete state in
which agent `"a1"` is already inlined and the message spawns `"a1"`. -/
theorem C4_witness :
    spawnTruthy ⟨"user", none, "", "", some ⟨some "a1", "again"⟩⟩ = some "a1" ∧
    (["a1"] : List String).contains "a1" = true ∧
    walkStep [⟨"a1", []⟩] ⟨[], ["a1"], []⟩ ⟨"user", none, "", "", some ⟨some "a1", "again"⟩⟩ =
      walkStep [⟨"a1", [⟨"user", some ⟨some "user", some (.str "changed content"), ""⟩, "", "", none⟩]⟩]
        ⟨[], ["a1"], []⟩ ⟨"user", none, "", "", some ⟨some "a1", "again"⟩⟩ :=
  ⟨rfl, rfl,
    (C4_second_reference_independent [⟨"a1", []⟩]
      [⟨"a1", [⟨"user", some ⟨some "user", some (.str "changed content"), ""⟩, "", "", none⟩]⟩]
      ⟨[], ["a1"], []⟩ ⟨"user", none, "", "", some ⟨some "a1", "again"⟩⟩ "a1" rfl rfl).1⟩

/-! ### Claim C8 -/

/-- C8 counterexample: a spawn event referencing the already-inlined
identifier `"a1"`, while the matching agent (with renderable content) is
available in the map: the step leaves the output lines *unchanged*
(`["X"]` before and after) — no cross-reference marker, or any line at
all, is rendered at the duplicate reference. -/
theorem C8_counterexample :
    walkStep [⟨"a1", [⟨"assistant", some ⟨some "assistant", some (.str "agent content"), ""⟩, "", "", none⟩]⟩]
      ⟨[], ["a1"], ["X"]⟩ ⟨"user", none, "", "", some ⟨some "a1", "second call"⟩⟩ =
      Except.ok ⟨[], ["a1"], ["X"]⟩ := rfl

/-- C8 (amended): at a spawn reference to an already-inlined identifier
the assembler emits no sub-section and no marker of any kind: the
resulting state is exactly the flushed pending chunk appended to the
previous lines, with an empty chunk and an unchanged inlined set. -/
theorem C8_amended_duplicate_emits_nothing (agents : List AgentInfo)
    (st : WalkState) (m : Msg) (a : String)
    (h1 : spawnTruthy m = some a) (h2 : st.inlined.contains a = true)
    (r : WalkState) (hr : walkStep agents st m = Except.ok r) :
    ∃ f, format_merged_messages (st.chunk ++ [m]) "" = Except.ok f ∧
      r = ⟨[], st.inlined, chunkFlushAppend st.lines f⟩ := by
  have hmem : a ∈ st.inlined := by simpa using h2
  unfold walkStep at hr
  rw [h1] at hr
  cases hf : format_merged_messages (st.chunk ++ [m]) "" with
  | error e =>
      simp only [bind, Except.bind, hf] at hr
      exact absurd hr (by simp)
  | ok f =>
      simp only [bind, Except.bind, hf] at hr
      rw [if_neg (by simp [hmem])] at hr
      simp only [pure, Except.pure, Except.ok.injEq] at hr
      exact ⟨f, rfl, hr.symm⟩

/-- Witness for `C8_amended_duplicate_emits_nothing` at a concrete
duplicate reference. -/
theorem C8_witness :
    spawnTruthy ⟨"user", none, "", "", some ⟨some "a2", "dup"⟩⟩ = some "a2" ∧
    (["a2"] : List String).contains "a2" = true ∧
    walkStep [⟨"a2", []⟩] ⟨[], ["a2"], ["prev"]⟩
      ⟨"user", none, "", "", some ⟨some "a2", "dup"⟩⟩ = Except.ok ⟨[], ["a2"], ["prev"]⟩ ∧
    ∃ f, format_merged_messages
        (([] : List Msg) ++ [⟨"user", none, "", "", some ⟨some "a2", "dup"⟩⟩]) "" = Except.ok f ∧
      (⟨[], ["a2"], ["prev"]⟩ : WalkState) = ⟨[], ["a2"], chunkFlushAppend ["prev"] f⟩ :=
  ⟨rfl, rfl, rfl,
    C8_amended_duplicate_emits_nothing [⟨"a2", []⟩] ⟨[], ["a2"], ["prev"]⟩
      ⟨"user", none, "", "", some ⟨some "a2", "dup"⟩⟩ "a2" rfl rfl ⟨[], ["a2"], ["prev"]⟩ rfl⟩

/-- A decoded part whose role is neither `user` nor `assistant`
contributes nothing to the merger's output. -/
theorem mergeWalkAux_skip_other (p : MessagePart) (h3 : p.role ≠ "user")
    (h4 : p.role ≠ "assistant") (rest : List (Option MessagePart)) (ind : String) :
    mergeWalkAux ind [] (some p :: rest) = mergeWalkAux ind [] rest := by
  conv_lhs => rw [mergeWalkAux]
  rw [if_neg h4, if_pos rfl, if_neg h3]
  simp

/-! ### Claim C10 -/

/-- C10: an event whose message object lacks a `role` field but has
renderable content is not dropped by the decoder — it yields a part whose
role is the event's top-level `type` tag — and when that tag is neither
`"user"` nor `"assistant"` the Merger emits nothing for the part: the
drop happens in the Merger, not in the decoder. -/
theorem C10_roleless_dropped_by_merger (msg : Msg) (md : MsgData)
    (t th : String) (tc : List String)
    (hmsg : msg.message = some md) (hrole : md.role = none)
    (h1 : msg.type ≠ "queue-operation") (h2 : msg.type ≠ "file-history-snapshot")
    (h3 : msg.type ≠ "user") (h4 : msg.type ≠ "assistant")
    (hg : get_text_content (effectiveContent msg) = Except.ok (t, th, tc))
    (hne : ¬(t = "" ∧ th = "" ∧ tc = [])) :
    ∃ p : MessagePart, extract_message_parts msg = Except.ok (some p) ∧
      p.role = msg.type ∧
      ∀ (rest : List (Option MessagePart)) (ind : String),
        mergeWalk (some p :: rest) ind = mergeWalk rest ind := by
  have hrof : roleOf msg = msg.type := by
    simp [roleOf, msgDataOf, hmsg, hrole]
  refine ⟨⟨msg.type, modelShort (msgDataOf msg).model,
    if t ≠ "" then cleanText t else t, th, tc⟩, ?_, rfl, ?_⟩
  · unfold extract_message_parts
    dsimp only
    rw [hg]
    simp only [bind, Except.bind]
    rw [if_neg (by tauto), if_neg (by rw [hrof]; tauto), if_neg hne, hrof]
    rfl
  · intro rest ind
    exact mergeWalkAux_skip_other _ h3 h4 rest ind

/-- Witness for `C10_roleless_dropped_by_merger`: a `"summary"`-typed
event whose message has text content but no role field. -/
theorem C10_witness :
    extract_message_parts ⟨"summary", some ⟨none, some (.str "a summary"), ""⟩, "", "", none⟩ =
      Except.ok (some ⟨"summary", "", "a summary", "", []⟩) ∧
    mergeWalk [some ⟨"summary", "", "a summary", "", []⟩] "" = mergeWalk [] "" := by
  obtain ⟨p, hp1, hp2, hp3⟩ :=
    C10_roleless_dropped_by_merger
      ⟨"summary", some ⟨none, some (.str "a summary"), ""⟩, "", "", none⟩
      ⟨none, some (.str "a summary"), ""⟩ "a summary" "" []
      rfl rfl (by decide) (by decide) (by decide) (by decide) rfl (by simp)
  have hpe : Except.ok (some p) =
      (Except.ok (some (⟨"summary", "", "a summary", "", []⟩ : MessagePart)) :
        Except Unit (Option MessagePart)) :=
    hp1.symm.trans rfl
  have hpv : p = ⟨"summary", "", "a summary", "", []⟩ :=
    Option.some.inj (Except.ok.inj hpe)
  exact ⟨hp1.trans (by rw [hpv]), by rw [← hpv]; exact hp3 [] ""⟩

/-! ### Claim C1 -/

/-- Gathering two adjacent tool groups first is the same as gathering the
concatenated group. -/
theorem coalesceTools_tools_tools (ts a : List String) (rest : List RunItem) :
    coalesceTools (.tools ts :: .tools a :: rest) =
      coalesceTools (.tools (ts ++ a) :: rest) := by
  cases hc : coalesceTools rest with
  | nil => simp [coalesceTools, hc]
  | cons x r' =>
      cases x with
      | tools b => simp [coalesceTools, hc, List.append_assoc]
      | thinking t => simp [coalesceTools, hc]
      | text t => simp [coalesceTools, hc]

/-- The merger's output loop over `content_items` equals rendering each
item independently after coalescing adjacent tool groups. -/
theorem emitItemsAux_coalesce (ind : String) (items : List RunItem) :
    (∀ ts : List String, emitItemsAux ind (some ts) items =
      renderItems ind (coalesceTools (.tools ts :: items))) ∧
    emitItemsAux ind none items = renderItems ind (coalesceTools items) := by
  induction items with
  | nil =>
      constructor
      · intro ts
        simp [emitItemsAux, flushTools, coalesceTools, renderItems, renderItem]
      · rfl
  | cons it rest ih =>
      obtain ⟨ihS, ihN⟩ := ih
      constructor
      · intro ts
        cases it with
        | thinking t =>
            simp [emitItemsAux, flushTools, coalesceTools, renderItems, renderItem, ihN]
        | text t =>
            simp [emitItemsAux, flushTools, coalesceTools, renderItems, renderItem, ihN]
        | tools a =>
            have hstep : emitItemsAux ind (some ts) (.tools a :: rest) =
                emitItemsAux ind (some (ts ++ a)) rest := rfl
            rw [hstep, ihS (ts ++ a), coalesceTools_tools_tools]
      · cases it with
        | thinking t =>
            simp [emitItemsAux, flushTools, coalesceTools, renderItems, renderItem, ihN]
        | text t =>
            simp [emitItemsAux, flushTools, coalesceTools, renderItems, renderItem, ihN]
        | tools a =>
            have hstep : emitItemsAux ind none (.tools a :: rest) =
                emitItemsAux ind (some a) rest := rfl
            rw [hstep, ihS a]

/-- Running the merger over a block of assistant parts accumulates them
all into the pending run and flushes once at the end. -/
theorem mergeWalkAux_append_assistants (ind : String) (ps : List MessagePart) :
    ∀ run : List MessagePart, (∀ p ∈ ps, p.role = "assistant") →
      mergeWalkAux ind run (ps.map some) =
        (if run ++ ps = [] then [] else runLines (run ++ ps) ind) := by
  induction ps with
  | nil =>
      intro run h
      simp [mergeWalkAux]
  | cons p rest ih =>
      intro run h
      have hp : p.role = "assistant" := h p (by simp)
      have hrest : ∀ q ∈ rest, q.role = "assistant" := fun q hq => h q (by simp [hq])
      rw [List.map_cons]
      rw [show mergeWalkAux ind run (some p :: rest.map some) =
        (if p.role = "assistant" then mergeWalkAux ind (run ++ [p]) (rest.map some)
         else (if run = [] then [] else runLines run ind) ++
           (if p.role = "user" then userLines p ind else []) ++
           mergeWalkAux ind [] (rest.map some)) from rfl]
      rw [if_pos hp, ih (run ++ [p]) hrest]
      simp [List.append_assoc]

/-- C1 counterexample: a run of two assistant parts — the first with
plain text `"A"`, the second with reasoning `"B"` — renders the text
*before* the reasoning (chronological event order), not grouped with all
reasoning first as the claim requires; the merger's output differs from
the kind-grouped rendering built from the claim's wording. -/
theorem C1_counterexample :
    mergeWalk [some ⟨"assistant", "m", "A", "", []⟩, some ⟨"assistant", "", "", "B", []⟩] "" =
      ["### Assistant (m)", "", "A", "", "> B", ""] ∧
    specKindGroupedRun [⟨"assistant", "m", "A", "", []⟩, ⟨"assistant", "", "", "B", []⟩] "" =
      ["### Assistant (m)", "", "> B", "", "A", ""] ∧
    mergeWalk [some ⟨"assistant", "m", "A", "", []⟩, some ⟨"assistant", "", "", "B", []⟩] "" ≠
      specKindGroupedRun [⟨"assistant", "m", "A", "", []⟩, ⟨"assistant", "", "", "B", []⟩] "" :=
  ⟨rfl, rfl, by decide⟩

/-- C1 (amended): for every run of assistant parts the Merger outputs one
header (with the last non-empty model tag), then the run's content items
in chronological event order — each part contributing its reasoning
(quoted), then its text, then its tool summaries — with *adjacent
tool-summary groups coalesced into one uninterrupted list*; content is
not regrouped globally by kind. -/
theorem C1_amended_chronological_run (ps : List MessagePart) (ind : String)
    (h1 : ps ≠ []) (h2 : ∀ p ∈ ps, p.role = "assistant") :
    mergeWalk (ps.map some) ind =
      [ind ++ "### Assistant (" ++ lastModel ps ++ ")", ""] ++
        renderItems ind (coalesceTools (contentItems ps)) := by
  rw [mergeWalk, mergeWalkAux_append_assistants ind ps [] h2]
  simp only [List.nil_append]
  rw [if_neg h1]
  rw [show runLines ps ind =
    [ind ++ "### Assistant (" ++ lastModel ps ++ ")", ""] ++
      emitItemsAux ind none (contentItems ps) from rfl]
  rw [(emitItemsAux_coalesce ind (contentItems ps)).2]

/-- Witness for `C1_amended_chronological_run`: two assistant parts
carrying only tool groups, which get coalesced into one list. -/
theorem C1_witness :
    ([⟨"assistant", "mod", "", "", ["t1"]⟩, ⟨"assistant", "", "", "", ["t2"]⟩] :
      List MessagePart) ≠ [] ∧
    mergeWalk ([⟨"assistant", "mod", "", "", ["t1"]⟩,
        ⟨"assistant", "", "", "", ["t2"]⟩].map some) "" =
      ["" ++ "### Assistant (" ++
          lastModel [⟨"assistant", "mod", "", "", ["t1"]⟩, ⟨"assistant", "", "", "", ["t2"]⟩] ++ ")", ""] ++
        renderItems "" (coalesceTools (contentItems
          [⟨"assistant", "mod", "", "", ["t1"]⟩, ⟨"assistant", "", "", "", ["t2"]⟩])) :=
  ⟨by decide,
    C1_amended_chronological_run
      [⟨"assistant", "mod", "", "", ["t1"]⟩, ⟨"assistant", "", "", "", ["t2"]⟩] ""
      (by decide) (by intro p hp; fin_cases hp <;> rfl)⟩

/-! ### Claim C3 -/

@[simp] theorem isHeaderLine_user_header : isHeaderLine "### User" = true := rfl

@[simp] theorem isHeaderLine_assistant_header (m : String) :
    isHeaderLine ("### Assistant (" ++ m ++ ")") = true := rfl

@[simp] theorem isHeaderLine_quoted (l : String) :
    isHeaderLine ("> " ++ l) = false := rfl

@[simp] theorem isHeaderLine_tool_item (tc : String) :
    isHeaderLine ("- " ++ tc) = false := rfl

@[simp] theorem isHeaderLine_blank : isHeaderLine "" = false := rfl

theorem isHeaderLine_empty_indent (l : String) :
    isHeaderLine ("" ++ l) = isHeaderLine l := rfl

theorem headerCount_append (a b : List String) :
    headerCount (a ++ b) = headerCount a + headerCount b :=
  List.countP_append _ a b

theorem headerCount_flushTools (pend : Option (List String)) :
    headerCount (flushTools "" pend) = 0 := by
  cases pend with
  | none => rfl
  | some ts =>
      rw [flushTools, headerCount, List.countP_eq_zero]
      intro a ha
      rcases List.mem_append.mp ha with hm | hm
      · obtain ⟨tc, _, rfl⟩ := List.mem_map.mp hm
        simp [isHeaderLine_empty_indent]
      · simp at hm
        simp [hm]

theorem headerCount_emitItemsAux (items : List RunItem) :
    ∀ pend : Option (List String),
      (∀ t, RunItem.text t ∈ items → ∀ l ∈ splitLines t, isHeaderLine l = false) →
      headerCount (emitItemsAux "" pend items) = 0 := by
  induction items with
  | nil =>
      intro pend _
      exact headerCount_flushTools pend
  | cons it rest ih =>
      intro pend h
      have hrest : ∀ t, RunItem.text t ∈ rest → ∀ l ∈ splitLines t, isHeaderLine l = false :=
        fun t ht => h t (by simp [ht])
      cases it with
      | thinking t =>
          simp only [emitItemsAux]
          rw [headerCount_append, headerCount_append, headerCount_append,
            headerCount_flushTools, ih none hrest]
          have hq : headerCount ((splitLines t).map (fun l => "" ++ "> " ++ l)) = 0 := by
            rw [headerCount, List.countP_eq_zero]
            intro a ha
            obtain ⟨l, _, rfl⟩ := List.mem_map.mp ha
            simp [isHeaderLine_empty_indent]
          rw [hq]
          rfl
      | text t =>
          simp only [emitItemsAux]
          rw [headerCount_append, headerCount_append, headerCount_append,
            headerCount_flushTools, ih none hrest]
          have htx : ∀ l ∈ splitLines t, isHeaderLine l = false :=
            h t (by simp)
          have hq : headerCount ((splitLines t).map (fun l => "" ++ l)) = 0 := by
            rw [headerCount, List.countP_eq_zero]
            intro a ha
            obtain ⟨l, hl, rfl⟩ := List.mem_map.mp ha
            rw [isHeaderLine_empty_indent, htx l hl]
            simp
          rw [hq]
          rfl
      | tools a =>
          simp only [emitItemsAux]
          exact ih (some (pend.getD [] ++ a)) hrest

theorem headerCount_userLines (p : MessagePart) (h : noHeaderText p) :
    headerCount (userLines p "") = 1 := by
  rw [show userLines p "" = ["" ++ "### User", ""] ++
    (if p.text ≠ "" then (splitLines p.text).map (fun l => "" ++ l) ++ [""] else []) from rfl]
  rw [headerCount_append]
  have hhead : headerCount ["" ++ "### User", ""] = 1 := rfl
  have htail : headerCount
      (if p.text ≠ "" then (splitLines p.text).map (fun l => "" ++ l) ++ [""] else []) = 0 := by
    split_ifs with hp
    · rw [headerCount_append]
      have hq : headerCount ((splitLines p.text).map (fun l => "" ++ l)) = 0 := by
        rw [headerCount, List.countP_eq_zero]
        intro a ha
        obtain ⟨l, hl, rfl⟩ := List.mem_map.mp ha
        rw [isHeaderLine_empty_indent, h l hl]
        simp
      rw [hq]
      rfl
    · rfl
  rw [hhead, htail]

/-- Text payloads of `content_items` come from the run's parts. -/
theorem text_mem_contentItems (t : String) (ps : List MessagePart) :
    RunItem.text t ∈ contentItems ps → ∃ p, p ∈ ps ∧ p.text = t := by
  induction ps with
  | nil => simp [contentItems]
  | cons p rest ih =>
      intro hm
      rcases List.mem_append.mp hm with h | h
      · unfold partItems at h
        split_ifs at h <;> simp_all
      · obtain ⟨q, hq, hqt⟩ := ih h
        exact ⟨q, by simp [hq], hqt⟩

theorem headerCount_runLines (ps : List MessagePart) (h : ∀ p ∈ ps, noHeaderText p) :
    headerCount (runLines ps "") = 1 := by
  rw [show runLines ps "" = ["" ++ "### Assistant (" ++ lastModel ps ++ ")", ""] ++
    emitItemsAux "" none (contentItems ps) from rfl]
  rw [headerCount_append]
  have hhead : headerCount ["" ++ "### Assistant (" ++ lastModel ps ++ ")", ""] = 1 := rfl
  have hemit : headerCount (emitItemsAux "" none (contentItems ps)) = 0 := by
    apply headerCount_emitItemsAux
    intro t ht l hl
    obtain ⟨p, hp, hpt⟩ := text_mem_contentItems t ps ht
    exact h p hp l (by rw [hpt]; exact hl)
  rw [hhead, hemit]

/-- The merger's header output, counted against the run automaton. -/
theorem headerCount_mergeWalkAux (l : List (Option MessagePart)) :
    ∀ run : List MessagePart,
      (∀ p, some p ∈ l → noHeaderText p) → (∀ p ∈ run, noHeaderText p) →
      headerCount (mergeWalkAux "" run l) = headerCountAux (!run.isEmpty) l := by
  induction l with
  | nil =>
      intro run hl hrun
      cases run with
      | nil => rfl
      | cons q qs =>
          rw [show mergeWalkAux "" (q :: qs) [] = runLines (q :: qs) "" from by
            rw [mergeWalkAux]
            simp]
          rw [headerCount_runLines (q :: qs) hrun]
          rfl
  | cons o rest ih =>
      intro run hl hrun
      have hlrest : ∀ p, some p ∈ rest → noHeaderText p :=
        fun p hp => hl p (by simp [hp])
      cases o with
      | none =>
          rw [show mergeWalkAux "" run (none :: rest) = mergeWalkAux "" run rest from rfl]
          rw [ih run hlrest hrun]
          rfl
      | some p =>
          have hp : noHeaderText p := hl p (by simp)
          by_cases hrole : p.role = "assistant"
          · rw [show mergeWalkAux "" run (some p :: rest) =
              mergeWalkAux "" (run ++ [p]) rest from by
                rw [mergeWalkAux, if_pos hrole]]
            rw [ih (run ++ [p]) hlrest (by
              intro q hq
              rcases List.mem_append.mp hq with hq | hq
              · exact hrun q hq
              · simp at hq
                rw [hq]
                exact hp)]
            have h1 : (!(run ++ [p]).isEmpty) = true := by simp
            rw [h1]
            rw [show headerCountAux (!run.isEmpty) (some p :: rest) =
              headerCountAux true rest from by
                rw [headerCountAux, if_pos hrole]]
          · rw [show mergeWalkAux "" run (some p :: rest) =
              (if run = [] then [] else runLines run "") ++
                ((if p.role = "user" then userLines p "" else []) ++
                  mergeWalkAux "" [] rest) from by
                rw [mergeWalkAux, if_neg hrole]
                simp [List.append_assoc]]
            rw [headerCount_append, headerCount_append,
              ih [] hlrest (by intro q hq; simp at hq)]
            have hflush : headerCount (if run = [] then [] else runLines run "") =
                if (!run.isEmpty) = true then 1 else 0 := by
              cases run with
              | nil => rfl
              | cons q qs =>
                  rw [if_neg (by simp), headerCount_runLines (q :: qs) hrun]
                  rfl
            have huser : headerCount (if p.role = "user" then userLines p "" else []) =
                if p.role = "user" then 1 else 0 := by
              split_ifs with hu
              · exact headerCount_userLines p hp
              · rfl
            rw [hflush, huser]
            rw [show headerCountAux (!run.isEmpty) (some p :: rest) =
              (if (!run.isEmpty) then 1 else 0) + (if p.role = "user" then 1 else 0) +
                headerCountAux false rest from by
                rw [headerCountAux, if_neg hrole]]
            have hh : (!(([] : List MessagePart).isEmpty)) = false := rfl
            rw [hh]
            omega

/-- `assistantRuns` only looks at whether the head is an assistant. -/
theorem assistantRuns_head_congr (x y : MessagePart) (rest : List MessagePart)
    (hx : x.role = "assistant") (hy : y.role = "assistant") :
    assistantRuns (x :: rest) = assistantRuns (y :: rest) := by
  cases rest with
  | nil => simp [assistantRuns, hx, hy]
  | cons q r => simp [assistantRuns, hx, hy]

theorem assistantRuns_cons_other (p : MessagePart) (rest : List MessagePart)
    (hp : p.role ≠ "assistant") :
    assistantRuns (p :: rest) = assistantRuns rest := by
  cases rest with
  | nil => simp [assistantRuns, hp]
  | cons q r => simp [assistantRuns, hp]

/-- The run automaton counts one header per user part plus one per
maximal assistant run (the `true` state charges one additional run that
the pending assistants will close). -/
theorem headerCountAux_chars (ps : List MessagePart) :
    headerCountAux false (ps.map some) = usersCount ps + assistantRuns ps ∧
    headerCountAux true (ps.map some) = usersCount ps + assistantRuns (dummyAssistant :: ps) := by
  induction ps with
  | nil =>
      constructor
      · rfl
      · rfl
  | cons p rest ih =>
      obtain ⟨ih1, ih2⟩ := ih
      by_cases hp : p.role = "assistant"
      · have hu : (p.role == "user") = false := by
          rw [hp]
          rfl
        have huc : usersCount (p :: rest) = usersCount rest := by
          simp [usersCount, List.countP_cons, hu]
        have e3 : assistantRuns (p :: rest) = assistantRuns (dummyAssistant :: rest) :=
          assistantRuns_head_congr p dummyAssistant rest hp rfl
        have e4 : assistantRuns (dummyAssistant :: p :: rest) = assistantRuns (p :: rest) := by
          rw [show assistantRuns (dummyAssistant :: p :: rest) =
            (if dummyAssistant.role = "assistant" ∧ p.role ≠ "assistant" then 1 else 0) +
              assistantRuns (p :: rest) from rfl]
          rw [if_neg (by simp [hp])]
          omega
        have e5 : headerCountAux false ((p :: rest).map some) =
            headerCountAux true (rest.map some) := by
          rw [List.map_cons, headerCountAux, if_pos hp]
        have e6 : headerCountAux true ((p :: rest).map some) =
            headerCountAux true (rest.map some) := by
          rw [List.map_cons, headerCountAux, if_pos hp]
        constructor
        · rw [e5, ih2, huc]
          omega
        · rw [e6, ih2, huc]
          omega
      · have huc : usersCount (p :: rest) =
            (if p.role = "user" then 1 else 0) + usersCount rest := by
          by_cases h : p.role = "user"
          · have hb : (p.role == "user") = true := by
              rw [h]
              rfl
            rw [if_pos h, usersCount, usersCount, List.countP_cons, hb]
            simp [Nat.add_comm]
          · have hb : (p.role == "user") = false := by simp [h]
            rw [if_neg h, usersCount, usersCount, List.countP_cons, hb]
            simp
        have har : assistantRuns (p :: rest) = assistantRuns rest :=
          assistantRuns_cons_other p rest hp
        have har2 : assistantRuns (dummyAssistant :: p :: rest) = 1 + assistantRuns (p :: rest) := by
          rw [show assistantRuns (dummyAssistant :: p :: rest) =
            (if dummyAssistant.role = "assistant" ∧ p.role ≠ "assistant" then 1 else 0) +
              assistantRuns (p :: rest) from rfl]
          rw [if_pos ⟨rfl, hp⟩]
        have e5 : headerCountAux false ((p :: rest).map some) =
            (if p.role = "user" then 1 else 0) + headerCountAux false (rest.map some) := by
          rw [List.map_cons, headerCountAux, if_neg hp]
          simp
        have e6 : headerCountAux true ((p :: rest).map some) =
            1 + ((if p.role = "user" then 1 else 0) + headerCountAux false (rest.map some)) := by
          rw [List.map_cons, headerCountAux, if_neg hp]
          simp [Nat.add_assoc, Nat.add_comm]
        constructor
        · rw [e5, ih1, huc]
          omega
        · rw [e6, ih1, huc]
          omega

/-- C3 counterexample: two consecutive *user* parts form one maximal
same-role run, yet the Merger emits two `### User` headers — one per user
part — refuting the claim that the header count equals the number of
maximal same-role runs. -/
theorem C3_counterexample :
    headerCount (mergeWalk [some ⟨"user", "", "a", "", []⟩, some ⟨"user", "", "b", "", []⟩] "") = 2 ∧
    sameRoleRuns [⟨"user", "", "a", "", []⟩, ⟨"user", "", "b", "", []⟩] = 1 ∧
    (2 : Nat) ≠ 1 :=
  ⟨rfl, rfl, by decide⟩

/-- C3 (amended): for every sequence of decodable parts (none of whose
visible-text lines looks like a `### ` header), the number of header
lines emitted by the un-indented Merger equals the number of *user parts*
plus the number of *maximal assistant runs* — consecutive user parts each
get their own header, only assistant parts are merged into runs, and
parts with any other role contribute no header. -/
theorem C3_amended_header_count (ps : List MessagePart)
    (h : ∀ p ∈ ps, noHeaderText p) :
    headerCount (mergeWalk (ps.map some) "") = usersCount ps + assistantRuns ps := by
  rw [mergeWalk]
  rw [headerCount_mergeWalkAux (ps.map some) []
    (by
      intro p hp
      obtain ⟨q, hq, hqe⟩ := List.mem_map.mp hp
      obtain rfl : q = p := Option.some.inj hqe
      exact h q hq)
    (by intro q hq; simp at hq)]
  rw [show (!(([] : List MessagePart).isEmpty)) = false from rfl]
  exact (headerCountAux_chars ps).1

/-- Witness for `C3_amended_header_count` on a five-part sequence:
one user part, an assistant run of two, another user part, and a
`"summary"`-role part (which contributes no header). -/
theorem C3_witness :
    (∀ p ∈ ([⟨"user", "", "hi", "", []⟩, ⟨"assistant", "m", "x", "", []⟩,
        ⟨"assistant", "", "", "think", []⟩, ⟨"user", "", "bye", "", []⟩,
        ⟨"summary", "", "s", "", []⟩] : List MessagePart), noHeaderText p) ∧
    headerCount (mergeWalk (([⟨"user", "", "hi", "", []⟩, ⟨"assistant", "m", "x", "", []⟩,
        ⟨"assistant", "", "", "think", []⟩, ⟨"user", "", "bye", "", []⟩,
        ⟨"summary", "", "s", "", []⟩] : List MessagePart).map some) "") =
      usersCount [⟨"user", "", "hi", "", []⟩, ⟨"assistant", "m", "x", "", []⟩,
        ⟨"assistant", "", "", "think", []⟩, ⟨"user", "", "bye", "", []⟩,
        ⟨"summary", "", "s", "", []⟩] +
      assistantRuns [⟨"user", "", "hi", "", []⟩, ⟨"assistant", "m", "x", "", []⟩,
        ⟨"assistant", "", "", "think", []⟩, ⟨"user", "", "bye", "", []⟩,
        ⟨"summary", "", "s", "", []⟩] :=
  have hno : ∀ p ∈ ([⟨"user", "", "hi", "", []⟩, ⟨"assistant", "m", "x", "", []⟩,
      ⟨"assistant", "", "", "think", []⟩, ⟨"user", "", "bye", "", []⟩,
      ⟨"summary", "", "s", "", []⟩] : List MessagePart), noHeaderText p := by
    intro p hp
    fin_cases hp <;> intro l hl <;> fin_cases hl <;> rfl
  ⟨hno, C3_amended_header_count _ hno⟩
